import Mathlib

/-!
Verification of the Encrusted interactive-fiction core (src/main.rs): the
intent parser `parse_input`, the `Inventory` and `Flags` containers, the
room handlers and the dispatch loop of `main`.

Strings are modelled by Lean `String`; Rust `split_whitespace` is embedded
over the character list with the Unicode White_Space predicate that Rust's
`char::is_whitespace` implements.  The two fallback regexes
`^[uU]se\s+(.*) on (.*)$` and `^[uU]se\s+(.*)$` are applied by the source to
the single-space rejoin of the token list, where the only whitespace is the
single separator spaces; their leftmost-greedy capture semantics is embedded
as: first token is exactly `use`/`Use`, at least one further token, and the
two-object form splits the rejoined tail at the last occurrence of the
four-character delimiter `" on "`.
-/

/-- The `ParsedInput` enum of the source, a closed sum of intents. -/
inductive ParsedInput where
  | Quit : ParsedInput
  | Inv : ParsedInput
  | Look : String → ParsedInput
  | Get : String → ParsedInput
  | Use : String → ParsedInput
  | UseOn : String → String → ParsedInput
  | Talk : String → ParsedInput
  | North : ParsedInput
  | South : ParsedInput
  | East : ParsedInput
  | West : ParsedInput
  | Down : ParsedInput
  | Up : ParsedInput
  | Other : String → ParsedInput
deriving DecidableEq, Repr

/-- Rust `char::is_whitespace`: the Unicode White_Space property. -/
def rustWhitespace (c : Char) : Bool :=
  c.toNat = 0x9 || c.toNat = 0xA || c.toNat = 0xB || c.toNat = 0xC ||
  c.toNat = 0xD || c.toNat = 0x20 || c.toNat = 0x85 || c.toNat = 0xA0 ||
  c.toNat = 0x1680 || (0x2000 ≤ c.toNat && c.toNat ≤ 0x200A) ||
  c.toNat = 0x2028 || c.toNat = 0x2029 || c.toNat = 0x202F ||
  c.toNat = 0x205F || c.toNat = 0x3000

/-- Accumulator worker for `splitWhitespace`; `acc` holds the characters of
the token currently being scanned, in reverse order. -/
def splitWSAux : List Char → List Char → List String
  | [], acc => if acc.isEmpty then [] else [acc.reverse.asString]
  | c :: cs, acc =>
    if rustWhitespace c then
      if acc.isEmpty then splitWSAux cs []
      else acc.reverse.asString :: splitWSAux cs []
    else splitWSAux cs (c :: acc)

/-- Rust `str::split_whitespace`, collected into a list: maximal runs of
non-whitespace characters, in order; no empty tokens. -/
def splitWhitespace (s : String) : List String :=
  splitWSAux s.toList []

/-- Rust `Vec::join(" ")`: tokens rejoined with single spaces. -/
def joinSp : List String → String
  | [] => ""
  | [t] => t
  | t :: ts => t ++ " " ++ joinSp ts

/-- The four-character delimiter `" on "` that the two-object regex
`^[uU]se\s+(.*) on (.*)$` matches literally between its two captures. -/
def onPat : List Char := [' ', 'o', 'n', ' ']

/-- Splits a character list at the LAST occurrence of `onPat`, returning the
text before and after it; `none` when `onPat` does not occur.  This is the
capture split the greedy first `(.*)` of the two-object regex produces. -/
def splitAtLast : List Char → Option (List Char × List Char)
  | [] => none
  | c :: cs =>
    match splitAtLast cs with
    | some (a, b) => some (c :: a, b)
    | none =>
      if onPat.isPrefixOf (c :: cs) then some ([], (c :: cs).drop 4)
      else none

/-- The catch-all arm of `parse_input`: the two regexes
`use_on_regex = ^[uU]se\s+(.*) on (.*)$` (tried first) and
`use_regex = ^[uU]se\s+(.*)$`, applied to the single-space rejoin of the
tokens, falling through to `Other` with the rejoined text. -/
def catchAll (all : List String) : ParsedInput :=
  match all with
  | t :: rest =>
    if (t = "use" ∨ t = "Use") ∧ rest ≠ [] then
      match splitAtLast (joinSp rest).toList with
      | some (a, b) => ParsedInput.UseOn a.asString b.asString
      | none => ParsedInput.Use (joinSp rest)
    else ParsedInput.Other (joinSp all)
  | [] => ParsedInput.Other (joinSp all)

/-- The token-level grammar of `parse_input`: the ordered match of the
source, first arm wins. -/
def parseTokens (ts : List String) : ParsedInput :=
  if ts = ["n"] ∨ ts = ["N"] ∨ ts = ["north"] ∨ ts = ["North"] then .North
  else if ts = ["s"] ∨ ts = ["S"] ∨ ts = ["south"] ∨ ts = ["South"] then .South
  else if ts = ["e"] ∨ ts = ["E"] ∨ ts = ["east"] ∨ ts = ["East"] then .East
  else if ts = ["w"] ∨ ts = ["W"] ∨ ts = ["west"] ∨ ts = ["West"] then .West
  else if ts = ["u"] ∨ ts = ["U"] ∨ ts = ["up"] ∨ ts = ["Up"] then .Up
  else if ts = ["d"] ∨ ts = ["D"] ∨ ts = ["down"] ∨ ts = ["Down"] then .Down
  else if ts = ["i"] ∨ ts = ["I"] ∨ ts = ["inv"] then .Inv
  else if ts = ["q"] ∨ ts = ["Q"] ∨ ts = ["quit"] ∨ ts = ["Quit"] then .Quit
  else if ts.head? = some "get" ∨ ts.head? = some "take" ∨
      ts.head? = some "grab" then .Get (joinSp ts.tail)
  else if ts.head? = some "look" then
    if ts.tail.head? = some "at" then .Look (joinSp ts.tail.tail)
    else .Look (joinSp ts.tail)
  else if ts.head? = some "talk" then
    if ts.tail.head? = some "to" then .Talk (joinSp ts.tail.tail)
    else .Talk (joinSp ts.tail)
  else catchAll ts

/-- `parse_input` of the source: split on whitespace, then the ordered
grammar. -/
def parse_input (s : String) : ParsedInput :=
  parseTokens (splitWhitespace s)

/-- Rust `str::contains(pat)`: substring test over character lists. -/
def listContainsSub : List Char → List Char → Bool
  | [], pat => pat.isEmpty
  | c :: t, pat => pat.isPrefixOf (c :: t) || listContainsSub t pat

/-- Rust `String::contains` on the embedded strings. -/
def strContains (hay pat : String) : Bool :=
  listContainsSub hay.toList pat.toList

/-- The `Inventory` struct: an ordered `Vec` of (itemName, description)
pairs. -/
structure Inventory where
  items : List (String × String)
deriving DecidableEq, Repr

/-- `Inventory::new`: the empty container. -/
def Inventory.new : Inventory := ⟨[]⟩

/-- `Inventory::add`: pushes the pair at the end of the `Vec`. -/
def Inventory.add (inv : Inventory) (item desc : String) : Inventory :=
  ⟨inv.items ++ [(item, desc)]⟩

/-- Index-tracking worker for `Inventory::find`. -/
def findAux : List (String × String) → String → Nat → Option Nat
  | [], _, _ => none
  | (n, _) :: rest, target, i =>
    if target = n then some i else findAux rest target (i + 1)

/-- `Inventory::find`: index of the first entry with the given name. -/
def Inventory.find (inv : Inventory) (target : String) : Option Nat :=
  findAux inv.items target 0

/-- `Inventory::remove`: when `find` succeeds, `retain` keeps exactly the
entries whose name differs from `item` (so every entry with that name is
dropped); when `find` fails the container is untouched. -/
def Inventory.remove (inv : Inventory) (item : String) : Inventory :=
  match inv.find item with
  | some _ => ⟨inv.items.filter (fun p => p.1 != item)⟩
  | none => inv

/-- `Inventory::has`: whether `find` succeeds. -/
def Inventory.has (inv : Inventory) (target : String) : Bool :=
  (inv.find target).isSome

/-- The `Flags` struct: a map from flag name to `bool`, embedded as an
association list with HashMap `insert` semantics (replace the value of an
existing key, otherwise add the binding). -/
structure Flags where
  flags : List (String × Bool)
deriving DecidableEq, Repr

/-- `Flags::new`: the empty map. -/
def Flags.new : Flags := ⟨[]⟩

/-- First-match lookup in the association list (each key occurs at most
once, as in the HashMap). -/
def lookupFlag : List (String × Bool) → String → Option Bool
  | [], _ => none
  | (k, v) :: rest, key => if key = k then some v else lookupFlag rest key

/-- `Flags::is_set`: `flags.get(flag).unwrap_or(&false)` — a read-only
query, absent means `false`. -/
def Flags.is_set (f : Flags) (flag : String) : Bool :=
  (lookupFlag f.flags flag).getD false

/-- HashMap `insert`: replace the value at an existing key, else add. -/
def setAsList : List (String × Bool) → String → Bool → List (String × Bool)
  | [], key, v => [(key, v)]
  | (k, w) :: rest, key, v =>
    if key = k then (k, v) :: rest else (k, w) :: setAsList rest key v

/-- `Flags::set_as`. -/
def Flags.set_as (f : Flags) (flag : String) (val : Bool) : Flags :=
  ⟨setAsList f.flags flag val⟩

/-- `Flags::set`: set the flag to `true`. -/
def Flags.set (f : Flags) (flag : String) : Flags :=
  f.set_as flag true

/-- Result of one handler invocation: either the next room identifier with
the mutated state, or process termination with an exit code (the source
calls `exit(..)` from inside the handler; `exit` outcomes are absorbing,
nothing follows them). -/
inductive TurnResult where
  | next : Inventory → Flags → String → TurnResult
  | exit : Nat → TurnResult
deriving DecidableEq, Repr

/-- The `test_room` handler, with the turn's input line made explicit (the
source reads it via `get_user_input`, which parses one line). -/
def test_room (inv : Inventory) (flags : Flags) (line : String) : TurnResult :=
  match parse_input line with
  | .North => .next inv flags "room_a"
  | .Look _ => .next inv flags "test_room"
  | .Inv => .next inv flags "test_room"
  | .Quit => .exit 0
  | .Get item =>
    if strContains item "key" then
      .next (inv.add "Golden Key" "A quaint key with an irresistable luster.")
        (flags.set "test_room_got_golden_key") "test_room"
    else .next inv flags "test_room"
  | _ => .next inv flags "test_room"

/-- The `open_chest` helper of `room_a`: gated by the `room_a_opened_chest`
flag, consumes the Golden Key and yields the Sword. -/
def open_chest (inv : Inventory) (flags : Flags) : Inventory × Flags :=
  if flags.is_set "room_a_opened_chest" then (inv, flags)
  else if inv.has "Golden Key" then
    (((inv.remove "Golden Key").add "Sword" "You could do some damage with this."),
      flags.set "room_a_opened_chest")
  else (inv, flags)

/-- The `room_a` handler. -/
def room_a (inv : Inventory) (flags : Flags) (line : String) : TurnResult :=
  match parse_input line with
  | .South => .next inv flags "test_room"
  | .Look _ => .next inv flags "room_a"
  | .Inv => .next inv flags "room_a"
  | .Quit => .exit 0
  | .Use item =>
    if strContains item "key" then
      let p := open_chest inv flags
      .next p.1 p.2 "room_a"
    else .next inv flags "room_a"
  | .UseOn item object =>
    if strContains item "key" && strContains object "chest" then
      let p := open_chest inv flags
      .next p.1 p.2 "room_a"
    else .next inv flags "room_a"
  | .Other text =>
    if strContains text "open" && strContains text "chest" then
      let p := open_chest inv flags
      .next p.1 p.2 "room_a"
    else .next inv flags "room_a"
  | _ => .next inv flags "room_a"

/-- The room registry built in `main`: `test_room` and `room_a` are the only
registered identifiers. -/
def rooms (name : String) : Option (Inventory → Flags → String → TurnResult) :=
  if name = "test_room" then some test_room
  else if name = "room_a" then some room_a
  else none

/-- The mutable state the dispatch loop of `main` threads through turns. -/
structure GameState where
  inv : Inventory
  flags : Flags
  room : String
deriving Repr

/-- The initial state of `main`: empty inventory, empty flags, start room
`test_room`. -/
def initState : GameState := ⟨Inventory.new, Flags.new, "test_room"⟩

/-- One iteration of the dispatch loop: look the current identifier up in
the registry; a registered handler runs on the turn's input line, an
unregistered identifier dispatches to `dead_room`, which prints a
diagnostic and calls `exit(1)` without reading input. -/
def stepGame (s : GameState) (line : String) : TurnResult :=
  match rooms s.room with
  | some handler => handler s.inv s.flags line
  | none => .exit 1

/-- Runs the dispatch loop on a finite script of input lines; `none` when
the process terminated (by `exit`) before the script was exhausted. -/
def runScript (s : GameState) : List String → Option GameState
  | [] => some s
  | line :: rest =>
    match stepGame s line with
    | .next inv flags room => runScript ⟨inv, flags, room⟩ rest
    | .exit _ => none

/-- Applies a sequence of `set_as` mutations, in order, to a `Flags` value:
the reachable flag states are exactly the results of such sequences. -/
def applyFlagOps (f : Flags) (ops : List (String × Bool)) : Flags :=
  ops.foldl (fun g kv => g.set_as kv.1 kv.2) f

theorem splitWSAux_ws_nil : ∀ l : List Char,
    (∀ c ∈ l, rustWhitespace c = true) → splitWSAux l [] = []
  | [], _ => rfl
  | c :: cs, h => by
    have hc : rustWhitespace c = true := h c (List.mem_cons_self c cs)
    simp [splitWSAux, hc,
      splitWSAux_ws_nil cs (fun x hx => h x (List.mem_cons_of_mem c hx))]

theorem findAux_isSome : ∀ (l : List (String × String)) (t : String) (i : Nat),
    (findAux l t i).isSome = l.any (fun p => t == p.1)
  | [], _, _ => rfl
  | (n, d) :: rest, t, i => by
    by_cases h : t = n
    · simp [findAux, h]
    · simp [findAux, h, findAux_isSome rest t (i + 1)]

theorem has_eq_any (inv : Inventory) (t : String) :
    inv.has t = inv.items.any (fun p => t == p.1) := by
  unfold Inventory.has Inventory.find
  exact findAux_isSome inv.items t 0

theorem lookup_setAsList_ne : ∀ (l : List (String × Bool)) (key k : String)
    (v : Bool), k ≠ key → lookupFlag (setAsList l key v) k = lookupFlag l k
  | [], key, k, v, h => by simp [setAsList, lookupFlag, h]
  | (k2, w) :: rest, key, k, v, h => by
    by_cases h2 : key = k2
    · subst h2
      simp [setAsList, lookupFlag, h]
    · simp only [setAsList, if_neg h2, lookupFlag]
      by_cases h3 : k = k2
      · simp [h3]
      · simp [h3, lookup_setAsList_ne rest key k v h]

theorem lookup_setAsList_self : ∀ (l : List (String × Bool)) (k : String)
    (v : Bool), lookupFlag (setAsList l k v) k = some v
  | [], k, v => by simp [setAsList, lookupFlag]
  | (k2, w) :: rest, k, v => by
    by_cases h : k = k2
    · simp [setAsList, lookupFlag, h]
    · simp [setAsList, lookupFlag, h, lookup_setAsList_self rest k v]

theorem setAsList_idem : ∀ (l : List (String × Bool)) (k : String) (v : Bool),
    setAsList (setAsList l k v) k v = setAsList l k v
  | [], k, v => by simp [setAsList]
  | (k2, w) :: rest, k, v => by
    by_cases h : k = k2
    · simp [setAsList, h]
    · simp [setAsList, h, setAsList_idem rest k v]

theorem applyFlagOps_unset : ∀ (ops : List (String × Bool)) (f : Flags)
    (k : String), lookupFlag f.flags k = none → k ∉ ops.map Prod.fst →
    lookupFlag (applyFlagOps f ops).flags k = none
  | [], f, k, hf, _ => hf
  | (key, v) :: ops, f, k, hf, hk => by
    have hne : k ≠ key := by
      intro h
      exact hk (by simp [h])
    have hk2 : k ∉ ops.map Prod.fst := by
      intro h
      exact hk (by simp [h])
    have : lookupFlag (f.set_as key v).flags k = none := by
      unfold Flags.set_as
      rw [lookup_setAsList_ne f.flags key k v hne]
      exact hf
    exact applyFlagOps_unset ops (f.set_as key v) k this hk2

theorem findAux_eq_none_iff : ∀ (l : List (String × String)) (t : String)
    (i : Nat), findAux l t i = none ↔ ∀ p ∈ l, ¬(t = p.1)
  | [], t, i => by simp [findAux]
  | (n, d) :: rest, t, i => by
    by_cases h : t = n
    · simp [findAux, h]
    · simp only [findAux, if_neg h]
      rw [findAux_eq_none_iff rest t (i + 1)]
      simp [List.forall_mem_cons, h]

theorem find_eq_none_of_has_false (inv : Inventory) (t : String)
    (h : inv.has t = false) : inv.find t = none := by
  unfold Inventory.has at h
  cases hf : inv.find t with
  | none => rfl
  | some i => rw [hf] at h; simp at h

theorem has_false_all (inv : Inventory) (t : String) (h : inv.has t = false) :
    ∀ p ∈ inv.items, ¬(t = p.1) :=
  (findAux_eq_none_iff inv.items t 0).1 (find_eq_none_of_has_false inv t h)

theorem remove_eq_filter (inv : Inventory) (name : String) :
    (inv.remove name).items = inv.items.filter (fun p => p.1 != name) := by
  unfold Inventory.remove
  cases hf : inv.find name with
  | some i => rfl
  | none =>
    have hall := (findAux_eq_none_iff inv.items name 0).1 hf
    simp only
    symm
    rw [List.filter_eq_self]
    intro p hp
    simp only [bne_iff_ne, ne_eq]
    exact fun he => hall p hp he.symm

theorem eq_of_items_eq {a b : Inventory} (h : a.items = b.items) : a = b := by
  cases a
  cases b
  simpa using h

/-- Claim C2 — the code violates it.  Starting from the initial state and
issuing `get key` twice in the test room yields a reachable state whose
inventory holds TWO entries named `Golden Key`: the `test_room` Get handler
inserts unconditionally whenever the payload contains `key`, even though the
`test_room_got_golden_key` flag it sets (and uses to hide the key's
description) shows the pickup was meant to happen at most once. -/
theorem double_get_duplicates_golden_key :
    (runScript initState ["get key", "get key"]).map (fun st => st.inv.items) =
      some [("Golden Key", "A quaint key with an irresistable luster."),
        ("Golden Key", "A quaint key with an irresistable luster.")] := by
  decide

/-- Claim C3: the two-object pattern is attempted before the single-object
pattern — `use golden key on chest` parses as `UseOn("golden key","chest")`
and not as `Use("golden key on chest")`, while `use golden key` parses as
`Use("golden key")`. -/
theorem use_on_precedes_use :
    parse_input "use golden key on chest" = .UseOn "golden key" "chest" ∧
    parse_input "use golden key on chest" ≠ .Use "golden key on chest" ∧
    parse_input "use golden key" = .Use "golden key" := by
  decide

/-- Claim C4: every input that is empty or consists only of whitespace
splits into zero tokens, and `parse_input` returns `Other` with the empty
payload. -/
theorem whitespace_parses_to_empty_other (s : String)
    (h : ∀ c ∈ s.toList, rustWhitespace c = true) :
    parse_input s = .Other "" := by
  unfold parse_input splitWhitespace
  rw [splitWSAux_ws_nil s.toList h]
  rfl

/-- Witness for C4 at the concrete whitespace-only input built from a
space, a tab and a newline. -/
theorem whitespace_parses_to_empty_other_witness :
    parse_input " \t\n" = .Other "" :=
  whitespace_parses_to_empty_other " \t\n" (by decide)

/-- Claim C6 — counterexample to the unconditional round-trip.  On an
inventory that already holds an entry named `k`, `add("k","e")` followed by
`remove("k")` deletes the pre-existing entry as well (`retain` drops every
entry with that name), so the container does not return to its prior
state. -/
theorem add_remove_not_round_trip :
    ((Inventory.mk [("k", "d")]).add "k" "e").remove "k" ≠
      Inventory.mk [("k", "d")] := by
  decide

/-- Claim C6 as amended: the add-then-remove round-trip holds for every
inventory that does NOT already contain the name being added; removing a
non-present name is a no-op; and `has(name)` is true iff some entry with
that itemName is present. -/
theorem inventory_algebra :
    (∀ (inv : Inventory) (n d : String), inv.has n = false →
      (inv.add n d).remove n = inv) ∧
    (∀ (inv : Inventory) (n : String), inv.has n = false →
      inv.remove n = inv) ∧
    (∀ (inv : Inventory) (n : String),
      inv.has n = true ↔ ∃ d, (n, d) ∈ inv.items) := by
  refine ⟨?_, ?_, ?_⟩
  · intro inv n d h
    have hall := has_false_all inv n h
    apply eq_of_items_eq
    rw [remove_eq_filter]
    show ((inv.items ++ [(n, d)]).filter (fun p => p.1 != n)) = inv.items
    rw [List.filter_append]
    have h1 : inv.items.filter (fun p => p.1 != n) = inv.items := by
      rw [List.filter_eq_self]
      intro p hp
      simp only [bne_iff_ne, ne_eq]
      exact fun he => hall p hp he.symm
    have h2 : ([(n, d)] : List (String × String)).filter
        (fun p => p.1 != n) = [] := by simp
    rw [h1, h2, List.append_nil]
  · intro inv n h
    unfold Inventory.remove
    rw [find_eq_none_of_has_false inv n h]
  · intro inv n
    rw [has_eq_any, List.any_eq_true]
    constructor
    · rintro ⟨⟨p1, p2⟩, hp, he⟩
      simp only [beq_iff_eq] at he
      subst he
      exact ⟨p2, hp⟩
    · rintro ⟨d, hd⟩
      exact ⟨(n, d), hd, by simp⟩

/-- Witness for the amended C6 at concrete inputs: a fresh inventory
round-trips on `k`, removing `x` from the empty inventory is a no-op, and a
one-entry container reports `has("k")`. -/
theorem inventory_algebra_witness :
    ((Inventory.new.add "k" "d").remove "k" = Inventory.new) ∧
    (Inventory.new.remove "x" = Inventory.new) ∧
    ((Inventory.mk [("k", "d")]).has "k" = true) :=
  ⟨inventory_algebra.1 Inventory.new "k" "d" (by decide),
   inventory_algebra.2.1 Inventory.new "x" (by decide),
   (inventory_algebra.2.2 (Inventory.mk [("k", "d")]) "k").2 ⟨"d", by decide⟩⟩

/-- Claim C7: a flag never touched by any `set_as`/`set` operation reads
`false` (absence is `false`); after `set(name)` the flag reads `true`;
setting the same flag twice yields the same `Flags` state as setting it
once.  The query `is_set` is embedded as a pure function
`Flags → String → Bool`, so it cannot mutate the state, matching the
read-only contract. -/
theorem flags_algebra :
    (∀ (ops : List (String × Bool)) (k : String), k ∉ ops.map Prod.fst →
      (applyFlagOps Flags.new ops).is_set k = false) ∧
    (∀ (f : Flags) (k : String), (f.set k).is_set k = true) ∧
    (∀ (f : Flags) (k : String), (f.set k).set k = f.set k) := by
  refine ⟨?_, ?_, ?_⟩
  · intro ops k hk
    unfold Flags.is_set
    rw [applyFlagOps_unset ops Flags.new k rfl hk]
    rfl
  · intro f k
    unfold Flags.is_set Flags.set Flags.set_as
    rw [lookup_setAsList_self]
    rfl
  · intro f k
    unfold Flags.set Flags.set_as
    simp only [setAsList_idem]

/-- Witness for C7 at concrete inputs: after setting only `a`, the flag `b`
reads false, `a` reads true, and the double set of `a` equals the single
set. -/
theorem flags_algebra_witness :
    ((applyFlagOps Flags.new [("a", true)]).is_set "b" = false) ∧
    ((Flags.new.set "a").is_set "a" = true) ∧
    ((Flags.new.set "a").set "a" = Flags.new.set "a") :=
  ⟨flags_algebra.1 [("a", true)] "b" (by decide),
   flags_algebra.2.1 Flags.new "a",
   flags_algebra.2.2 Flags.new "a"⟩

/-- Claim C9: `remove(name)` deletes EVERY entry whose itemName equals
`name` (the `retain` call filters the whole `Vec`), so `has(name)` is false
immediately afterwards — also on inventories already holding several entries
with the same name. -/
theorem remove_deletes_every_entry (inv : Inventory) (name : String) :
    (inv.remove name).has name = false ∧
    (inv.remove name).items = inv.items.filter (fun p => p.1 != name) := by
  refine ⟨?_, remove_eq_filter inv name⟩
  rw [has_eq_any, remove_eq_filter, List.any_eq_false]
  intro p hp
  have hne := (List.mem_filter.1 hp).2
  simp only [bne_iff_ne, ne_eq] at hne
  simp only [beq_iff_eq]
  exact fun he => hne he.symm

theorem catchAll_cases (all : List String) :
    (∃ a b, catchAll all = .UseOn a b) ∨ (∃ x, catchAll all = .Use x) ∨
    (∃ x, catchAll all = .Other x) := by
  cases all with
  | nil => exact Or.inr (Or.inr ⟨joinSp [], rfl⟩)
  | cons t rest =>
    simp only [catchAll]
    by_cases h : (t = "use" ∨ t = "Use") ∧ rest ≠ []
    · rw [if_pos h]
      cases hs : splitAtLast (joinSp rest).toList with
      | some p =>
        obtain ⟨a, b⟩ := p
        exact Or.inl ⟨a.asString, b.asString, rfl⟩
      | none => exact Or.inr (Or.inl ⟨joinSp rest, rfl⟩)
    · rw [if_neg h]
      exact Or.inr (Or.inr ⟨joinSp (t :: rest), rfl⟩)


theorem parseTokens_shape (ts : List String) :
    ((ts = ["n"] ∨ ts = ["N"] ∨ ts = ["north"] ∨ ts = ["North"]) ∧
      parseTokens ts = .North) ∨
    ((ts = ["s"] ∨ ts = ["S"] ∨ ts = ["south"] ∨ ts = ["South"]) ∧
      parseTokens ts = .South) ∨
    ((ts = ["e"] ∨ ts = ["E"] ∨ ts = ["east"] ∨ ts = ["East"]) ∧
      parseTokens ts = .East) ∨
    ((ts = ["w"] ∨ ts = ["W"] ∨ ts = ["west"] ∨ ts = ["West"]) ∧
      parseTokens ts = .West) ∨
    ((ts = ["u"] ∨ ts = ["U"] ∨ ts = ["up"] ∨ ts = ["Up"]) ∧
      parseTokens ts = .Up) ∨
    ((ts = ["d"] ∨ ts = ["D"] ∨ ts = ["down"] ∨ ts = ["Down"]) ∧
      parseTokens ts = .Down) ∨
    parseTokens ts = .Inv ∨ parseTokens ts = .Quit ∨
    (∃ x, parseTokens ts = .Get x) ∨ (∃ x, parseTokens ts = .Look x) ∨
    (∃ x, parseTokens ts = .Talk x) ∨ (∃ a b, parseTokens ts = .UseOn a b) ∨
    (∃ x, parseTokens ts = .Use x) ∨ (∃ x, parseTokens ts = .Other x) := by
  by_cases c1 : (ts = ["n"] ∨ ts = ["N"] ∨ ts = ["north"] ∨ ts = ["North"])
  · exact Or.inl ⟨c1, by unfold parseTokens; rw [if_pos c1]⟩
  by_cases c2 : (ts = ["s"] ∨ ts = ["S"] ∨ ts = ["south"] ∨ ts = ["South"])
  · exact Or.inr (Or.inl ⟨c2, by unfold parseTokens; rw [if_neg c1, if_pos c2]⟩)
  by_cases c3 : (ts = ["e"] ∨ ts = ["E"] ∨ ts = ["east"] ∨ ts = ["East"])
  · exact Or.inr (Or.inr (Or.inl ⟨c3, by
      unfold parseTokens; rw [if_neg c1, if_neg c2, if_pos c3]⟩))
  by_cases c4 : (ts = ["w"] ∨ ts = ["W"] ∨ ts = ["west"] ∨ ts = ["West"])
  · exact Or.inr (Or.inr (Or.inr (Or.inl ⟨c4, by
      unfold parseTokens; rw [if_neg c1, if_neg c2, if_neg c3, if_pos c4]⟩)))
  by_cases c5 : (ts = ["u"] ∨ ts = ["U"] ∨ ts = ["up"] ∨ ts = ["Up"])
  · exact Or.inr (Or.inr (Or.inr (Or.inr (Or.inl ⟨c5, by
      unfold parseTokens
      rw [if_neg c1, if_neg c2, if_neg c3, if_neg c4, if_pos c5]⟩))))
  by_cases c6 : (ts = ["d"] ∨ ts = ["D"] ∨ ts = ["down"] ∨ ts = ["Down"])
  · exact Or.inr (Or.inr (Or.inr (Or.inr (Or.inr (Or.inl ⟨c6, by
      unfold parseTokens
      rw [if_neg c1, if_neg c2, if_neg c3, if_neg c4, if_neg c5,
        if_pos c6]⟩)))))
  by_cases c7 : (ts = ["i"] ∨ ts = ["I"] ∨ ts = ["inv"])
  · refine Or.inr (Or.inr (Or.inr (Or.inr (Or.inr (Or.inr (Or.inl ?_))))))
    unfold parseTokens
    rw [if_neg c1, if_neg c2, if_neg c3, if_neg c4, if_neg c5, if_neg c6,
      if_pos c7]
  by_cases c8 : (ts = ["q"] ∨ ts = ["Q"] ∨ ts = ["quit"] ∨ ts = ["Quit"])
  · refine Or.inr (Or.inr (Or.inr (Or.inr (Or.inr (Or.inr (Or.inr
      (Or.inl ?_)))))))
    unfold parseTokens
    rw [if_neg c1, if_neg c2, if_neg c3, if_neg c4, if_neg c5, if_neg c6,
      if_neg c7, if_pos c8]
  by_cases c9 : (ts.head? = some "get" ∨ ts.head? = some "take" ∨
      ts.head? = some "grab")
  · refine Or.inr (Or.inr (Or.inr (Or.inr (Or.inr (Or.inr (Or.inr (Or.inr
      (Or.inl ⟨joinSp ts.tail, ?_⟩))))))))
    unfold parseTokens
    rw [if_neg c1, if_neg c2, if_neg c3, if_neg c4, if_neg c5, if_neg c6,
      if_neg c7, if_neg c8, if_pos c9]
  by_cases c10 : ts.head? = some "look"
  · refine Or.inr (Or.inr (Or.inr (Or.inr (Or.inr (Or.inr (Or.inr (Or.inr
      (Or.inr (Or.inl ?_)))))))))
    unfold parseTokens
    rw [if_neg c1, if_neg c2, if_neg c3, if_neg c4, if_neg c5, if_neg c6,
      if_neg c7, if_neg c8, if_neg c9, if_pos c10]
    by_cases c11 : ts.tail.head? = some "at"
    · exact ⟨joinSp ts.tail.tail, by rw [if_pos c11]⟩
    · exact ⟨joinSp ts.tail, by rw [if_neg c11]⟩
  by_cases c12 : ts.head? = some "talk"
  · refine Or.inr (Or.inr (Or.inr (Or.inr (Or.inr (Or.inr (Or.inr (Or.inr
      (Or.inr (Or.inr (Or.inl ?_))))))))))
    unfold parseTokens
    rw [if_neg c1, if_neg c2, if_neg c3, if_neg c4, if_neg c5, if_neg c6,
      if_neg c7, if_neg c8, if_neg c9, if_neg c10, if_pos c12]
    by_cases c13 : ts.tail.head? = some "to"
    · exact ⟨joinSp ts.tail.tail, by rw [if_pos c13]⟩
    · exact ⟨joinSp ts.tail, by rw [if_neg c13]⟩
  have hca : parseTokens ts = catchAll ts := by
    unfold parseTokens
    rw [if_neg c1, if_neg c2, if_neg c3, if_neg c4, if_neg c5, if_neg c6,
      if_neg c7, if_neg c8, if_neg c9, if_neg c10, if_neg c12]
  rcases catchAll_cases ts with ⟨a, b, hc⟩ | ⟨x, hc⟩ | ⟨x, hc⟩
  · exact Or.inr (Or.inr (Or.inr (Or.inr (Or.inr (Or.inr (Or.inr (Or.inr
      (Or.inr (Or.inr (Or.inr (Or.inl ⟨a, b, hca.trans hc⟩)))))))))))
  · exact Or.inr (Or.inr (Or.inr (Or.inr (Or.inr (Or.inr (Or.inr (Or.inr
      (Or.inr (Or.inr (Or.inr (Or.inr (Or.inl ⟨x, hca.trans hc⟩))))))))))))
  · exact Or.inr (Or.inr (Or.inr (Or.inr (Or.inr (Or.inr (Or.inr (Or.inr
      (Or.inr (Or.inr (Or.inr (Or.inr (Or.inr ⟨x, hca.trans hc⟩))))))))))))

theorem parseTokens_north_iff (ts : List String) :
    parseTokens ts = .North ↔
      (ts = ["n"] ∨ ts = ["N"] ∨ ts = ["north"] ∨ ts = ["North"]) := by
  constructor
  · intro h
    rcases parseTokens_shape ts with ⟨hc, he⟩ | ⟨hc, he⟩ | ⟨hc, he⟩ |
        ⟨hc, he⟩ | ⟨hc, he⟩ | ⟨hc, he⟩ | he | he | ⟨x, he⟩ | ⟨x, he⟩ |
        ⟨x, he⟩ | ⟨a, b, he⟩ | ⟨x, he⟩ | ⟨x, he⟩ <;>
      first
        | exact hc
        | (rw [h] at he; exact ParsedInput.noConfusion he)
  · rintro (rfl | rfl | rfl | rfl) <;> decide

theorem parseTokens_south_iff (ts : List String) :
    parseTokens ts = .South ↔
      (ts = ["s"] ∨ ts = ["S"] ∨ ts = ["south"] ∨ ts = ["South"]) := by
  constructor
  · intro h
    rcases parseTokens_shape ts with ⟨hc, he⟩ | ⟨hc, he⟩ | ⟨hc, he⟩ |
        ⟨hc, he⟩ | ⟨hc, he⟩ | ⟨hc, he⟩ | he | he | ⟨x, he⟩ | ⟨x, he⟩ |
        ⟨x, he⟩ | ⟨a, b, he⟩ | ⟨x, he⟩ | ⟨x, he⟩ <;>
      first
        | exact hc
        | (rw [h] at he; exact ParsedInput.noConfusion he)
  · rintro (rfl | rfl | rfl | rfl) <;> decide

theorem parseTokens_east_iff (ts : List String) :
    parseTokens ts = .East ↔
      (ts = ["e"] ∨ ts = ["E"] ∨ ts = ["east"] ∨ ts = ["East"]) := by
  constructor
  · intro h
    rcases parseTokens_shape ts with ⟨hc, he⟩ | ⟨hc, he⟩ | ⟨hc, he⟩ |
        ⟨hc, he⟩ | ⟨hc, he⟩ | ⟨hc, he⟩ | he | he | ⟨x, he⟩ | ⟨x, he⟩ |
        ⟨x, he⟩ | ⟨a, b, he⟩ | ⟨x, he⟩ | ⟨x, he⟩ <;>
      first
        | exact hc
        | (rw [h] at he; exact ParsedInput.noConfusion he)
  · rintro (rfl | rfl | rfl | rfl) <;> decide

theorem parseTokens_west_iff (ts : List String) :
    parseTokens ts = .West ↔
      (ts = ["w"] ∨ ts = ["W"] ∨ ts = ["west"] ∨ ts = ["West"]) := by
  constructor
  · intro h
    rcases parseTokens_shape ts with ⟨hc, he⟩ | ⟨hc, he⟩ | ⟨hc, he⟩ |
        ⟨hc, he⟩ | ⟨hc, he⟩ | ⟨hc, he⟩ | he | he | ⟨x, he⟩ | ⟨x, he⟩ |
        ⟨x, he⟩ | ⟨a, b, he⟩ | ⟨x, he⟩ | ⟨x, he⟩ <;>
      first
        | exact hc
        | (rw [h] at he; exact ParsedInput.noConfusion he)
  · rintro (rfl | rfl | rfl | rfl) <;> decide

theorem parseTokens_up_iff (ts : List String) :
    parseTokens ts = .Up ↔
      (ts = ["u"] ∨ ts = ["U"] ∨ ts = ["up"] ∨ ts = ["Up"]) := by
  constructor
  · intro h
    rcases parseTokens_shape ts with ⟨hc, he⟩ | ⟨hc, he⟩ | ⟨hc, he⟩ |
        ⟨hc, he⟩ | ⟨hc, he⟩ | ⟨hc, he⟩ | he | he | ⟨x, he⟩ | ⟨x, he⟩ |
        ⟨x, he⟩ | ⟨a, b, he⟩ | ⟨x, he⟩ | ⟨x, he⟩ <;>
      first
        | exact hc
        | (rw [h] at he; exact ParsedInput.noConfusion he)
  · rintro (rfl | rfl | rfl | rfl) <;> decide

theorem parseTokens_down_iff (ts : List String) :
    parseTokens ts = .Down ↔
      (ts = ["d"] ∨ ts = ["D"] ∨ ts = ["down"] ∨ ts = ["Down"]) := by
  constructor
  · intro h
    rcases parseTokens_shape ts with ⟨hc, he⟩ | ⟨hc, he⟩ | ⟨hc, he⟩ |
        ⟨hc, he⟩ | ⟨hc, he⟩ | ⟨hc, he⟩ | he | he | ⟨x, he⟩ | ⟨x, he⟩ |
        ⟨x, he⟩ | ⟨a, b, he⟩ | ⟨x, he⟩ | ⟨x, he⟩ <;>
      first
        | exact hc
        | (rw [h] at he; exact ParsedInput.noConfusion he)
  · rintro (rfl | rfl | rfl | rfl) <;> decide

/-- Claim C5 — counterexample to "no input text outside these literal
variants produces a direction intent", read over input strings: the input
text `"north\n"` (exactly what `read_line` hands the parser when the player
types `north`) is not one of the 24 literal variants, yet parses to `North`,
because the parser splits on whitespace before matching. -/
theorem direction_outside_literal_variants :
    parse_input "north\n" = .North ∧
    "north\n" ∉ (["n", "N", "north", "North", "s", "S", "south", "South",
      "e", "E", "east", "East", "w", "W", "west", "West",
      "u", "U", "up", "Up", "d", "D", "down", "Down"] : List String) := by
  decide

/-- Claim C5 as amended: an input produces a direction intent exactly when
its whitespace tokenization is a single token equal to one of the literal
case variants — `n/N/north/North` for North and the analogous literal sets
for south, east, west, up and down; no other tokenization yields any
direction intent, and there is no general case folding. -/
theorem direction_variants (s : String) :
    (parse_input s = .North ↔ (splitWhitespace s = ["n"] ∨
      splitWhitespace s = ["N"] ∨ splitWhitespace s = ["north"] ∨
      splitWhitespace s = ["North"])) ∧
    (parse_input s = .South ↔ (splitWhitespace s = ["s"] ∨
      splitWhitespace s = ["S"] ∨ splitWhitespace s = ["south"] ∨
      splitWhitespace s = ["South"])) ∧
    (parse_input s = .East ↔ (splitWhitespace s = ["e"] ∨
      splitWhitespace s = ["E"] ∨ splitWhitespace s = ["east"] ∨
      splitWhitespace s = ["East"])) ∧
    (parse_input s = .West ↔ (splitWhitespace s = ["w"] ∨
      splitWhitespace s = ["W"] ∨ splitWhitespace s = ["west"] ∨
      splitWhitespace s = ["West"])) ∧
    (parse_input s = .Up ↔ (splitWhitespace s = ["u"] ∨
      splitWhitespace s = ["U"] ∨ splitWhitespace s = ["up"] ∨
      splitWhitespace s = ["Up"])) ∧
    (parse_input s = .Down ↔ (splitWhitespace s = ["d"] ∨
      splitWhitespace s = ["D"] ∨ splitWhitespace s = ["down"] ∨
      splitWhitespace s = ["Down"])) :=
  ⟨parseTokens_north_iff (splitWhitespace s),
   parseTokens_south_iff (splitWhitespace s),
   parseTokens_east_iff (splitWhitespace s),
   parseTokens_west_iff (splitWhitespace s),
   parseTokens_up_iff (splitWhitespace s),
   parseTokens_down_iff (splitWhitespace s)⟩

/-- The trigger condition of the grammar: some arm of the source's token
match (or one of the two `use` regexes) applies.  Inputs outside this
condition are the unrecognized ones. -/
def recognizedTokens (ts : List String) : Prop :=
  (ts = ["n"] ∨ ts = ["N"] ∨ ts = ["north"] ∨ ts = ["North"]) ∨
  (ts = ["s"] ∨ ts = ["S"] ∨ ts = ["south"] ∨ ts = ["South"]) ∨
  (ts = ["e"] ∨ ts = ["E"] ∨ ts = ["east"] ∨ ts = ["East"]) ∨
  (ts = ["w"] ∨ ts = ["W"] ∨ ts = ["west"] ∨ ts = ["West"]) ∨
  (ts = ["u"] ∨ ts = ["U"] ∨ ts = ["up"] ∨ ts = ["Up"]) ∨
  (ts = ["d"] ∨ ts = ["D"] ∨ ts = ["down"] ∨ ts = ["Down"]) ∨
  (ts = ["i"] ∨ ts = ["I"] ∨ ts = ["inv"]) ∨
  (ts = ["q"] ∨ ts = ["Q"] ∨ ts = ["quit"] ∨ ts = ["Quit"]) ∨
  (ts.head? = some "get" ∨ ts.head? = some "take" ∨
    ts.head? = some "grab") ∨
  (ts.head? = some "look") ∨
  (ts.head? = some "talk") ∨
  ((ts.head? = some "use" ∨ ts.head? = some "Use") ∧ ts.tail ≠ [])

instance (ts : List String) : Decidable (recognizedTokens ts) := by
  unfold recognizedTokens
  infer_instance

theorem parseTokens_unrecognized (ts : List String)
    (h : ¬ recognizedTokens ts) : parseTokens ts = .Other (joinSp ts) := by
  unfold recognizedTokens at h
  have c1 : ¬(ts = ["n"] ∨ ts = ["N"] ∨ ts = ["north"] ∨ ts = ["North"]) :=
    fun hc => h (Or.inl hc)
  have c2 : ¬(ts = ["s"] ∨ ts = ["S"] ∨ ts = ["south"] ∨ ts = ["South"]) :=
    fun hc => h (Or.inr (Or.inl hc))
  have c3 : ¬(ts = ["e"] ∨ ts = ["E"] ∨ ts = ["east"] ∨ ts = ["East"]) :=
    fun hc => h (Or.inr (Or.inr (Or.inl hc)))
  have c4 : ¬(ts = ["w"] ∨ ts = ["W"] ∨ ts = ["west"] ∨ ts = ["West"]) :=
    fun hc => h (Or.inr (Or.inr (Or.inr (Or.inl hc))))
  have c5 : ¬(ts = ["u"] ∨ ts = ["U"] ∨ ts = ["up"] ∨ ts = ["Up"]) :=
    fun hc => h (Or.inr (Or.inr (Or.inr (Or.inr (Or.inl hc)))))
  have c6 : ¬(ts = ["d"] ∨ ts = ["D"] ∨ ts = ["down"] ∨ ts = ["Down"]) :=
    fun hc => h (Or.inr (Or.inr (Or.inr (Or.inr (Or.inr (Or.inl hc))))))
  have c7 : ¬(ts = ["i"] ∨ ts = ["I"] ∨ ts = ["inv"]) :=
    fun hc => h (Or.inr (Or.inr (Or.inr (Or.inr (Or.inr (Or.inr
      (Or.inl hc)))))))
  have c8 : ¬(ts = ["q"] ∨ ts = ["Q"] ∨ ts = ["quit"] ∨ ts = ["Quit"]) :=
    fun hc => h (Or.inr (Or.inr (Or.inr (Or.inr (Or.inr (Or.inr (Or.inr
      (Or.inl hc))))))))
  have c9 : ¬(ts.head? = some "get" ∨ ts.head? = some "take" ∨
      ts.head? = some "grab") :=
    fun hc => h (Or.inr (Or.inr (Or.inr (Or.inr (Or.inr (Or.inr (Or.inr
      (Or.inr (Or.inl hc)))))))))
  have c10 : ¬(ts.head? = some "look") :=
    fun hc => h (Or.inr (Or.inr (Or.inr (Or.inr (Or.inr (Or.inr (Or.inr
      (Or.inr (Or.inr (Or.inl hc))))))))))
  have c12 : ¬(ts.head? = some "talk") :=
    fun hc => h (Or.inr (Or.inr (Or.inr (Or.inr (Or.inr (Or.inr (Or.inr
      (Or.inr (Or.inr (Or.inr (Or.inl hc)))))))))))
  have c14 : ¬((ts.head? = some "use" ∨ ts.head? = some "Use") ∧
      ts.tail ≠ []) :=
    fun hc => h (Or.inr (Or.inr (Or.inr (Or.inr (Or.inr (Or.inr (Or.inr
      (Or.inr (Or.inr (Or.inr (Or.inr hc)))))))))))
  unfold parseTokens
  rw [if_neg c1, if_neg c2, if_neg c3, if_neg c4, if_neg c5, if_neg c6,
    if_neg c7, if_neg c8, if_neg c9, if_neg c10, if_neg c12]
  cases ts with
  | nil => rfl
  | cons t rest =>
    simp only [catchAll]
    rw [if_neg]
    · intro hcon
      refine c14 ⟨?_, ?_⟩
      · exact hcon.1.imp (fun h' => by rw [h']; rfl) (fun h' => by rw [h']; rfl)
      · exact hcon.2

/-- Claim C1: the parser is a total, deterministic, side-effect-free
function — embedded as the pure function `parse_input`, every input string
(empty, whitespace-only or arbitrary) yields exactly one `ParsedInput`
value, there is no error constructor, and every input outside the grammar's
trigger conditions falls through to `Other` with the rejoined tokens. -/
theorem parse_total_deterministic (s : String) :
    (∃! i : ParsedInput, parse_input s = i) ∧
    (¬ recognizedTokens (splitWhitespace s) →
      parse_input s = .Other (joinSp (splitWhitespace s))) :=
  ⟨⟨parse_input s, rfl, fun _ hy => hy.symm⟩,
   fun h => parseTokens_unrecognized (splitWhitespace s) h⟩

/-- Witness for C1 at the concrete unrecognized input `xyzzy plugh`. -/
theorem parse_total_deterministic_witness :
    (∃! i : ParsedInput, parse_input "xyzzy plugh" = i) ∧
    parse_input "xyzzy plugh" = .Other (joinSp (splitWhitespace "xyzzy plugh")) :=
  ⟨(parse_total_deterministic "xyzzy plugh").1,
   (parse_total_deterministic "xyzzy plugh").2 (by decide)⟩

theorem test_room_exit_iff (inv : Inventory) (flags : Flags) (line : String)
    (c : Nat) : test_room inv flags line = .exit c ↔
      (parse_input line = .Quit ∧ c = 0) := by
  unfold test_room
  cases hp : parse_input line <;> simp <;>
    first | exact eq_comm | (split <;> simp)

theorem room_a_exit_iff (inv : Inventory) (flags : Flags) (line : String)
    (c : Nat) : room_a inv flags line = .exit c ↔
      (parse_input line = .Quit ∧ c = 0) := by
  unfold room_a
  cases hp : parse_input line <;> simp <;>
    first | exact eq_comm | (split <;> simp)

/-- Claim C8: one dispatch step resolves to `exit 0` exactly when the
current identifier is registered and the handler observes a Quit intent
(both registered handlers call `exit(0)` there and nowhere else), and to
`exit 1` exactly when the identifier is absent from the registry (the
`dead_room` path, which prints its diagnostic and never reads input); both
outcomes are absorbing — once a step exits, the run of the dispatch loop
ends and no further state exists. -/
theorem exit_code_characterization (s : GameState) (line : String) :
    (stepGame s line = .exit 0 ↔
      ((rooms s.room).isSome ∧ parse_input line = .Quit)) ∧
    (stepGame s line = .exit 1 ↔ rooms s.room = none) ∧
    (∀ code script, stepGame s line = .exit code →
      runScript s (line :: script) = none) := by
  have h3 : ∀ code script, stepGame s line = .exit code →
      runScript s (line :: script) = none := by
    intro code script he
    unfold runScript
    rw [he]
  refine ⟨?_, ?_, h3⟩ <;> unfold stepGame
  · by_cases h1 : s.room = "test_room"
    · have hr : rooms s.room = some test_room := by
        unfold rooms; rw [if_pos h1]
      simp only [hr]
      rw [test_room_exit_iff]
      simp
    · by_cases h2 : s.room = "room_a"
      · have hr : rooms s.room = some room_a := by
          unfold rooms; rw [if_neg h1, if_pos h2]
        simp only [hr]
        rw [room_a_exit_iff]
        simp
      · have hr : rooms s.room = none := by
          unfold rooms; rw [if_neg h1, if_neg h2]
        simp [hr]
  · by_cases h1 : s.room = "test_room"
    · have hr : rooms s.room = some test_room := by
        unfold rooms; rw [if_pos h1]
      simp only [hr]
      rw [test_room_exit_iff]
      simp
    · by_cases h2 : s.room = "room_a"
      · have hr : rooms s.room = some room_a := by
          unfold rooms; rw [if_neg h1, if_pos h2]
        simp only [hr]
        rw [room_a_exit_iff]
        simp
      · have hr : rooms s.room = none := by
          unfold rooms; rw [if_neg h1, if_neg h2]
        simp [hr]

/-- Witness for C8: quitting on the first turn from the initial state
exits with status 0 and ends the run. -/
theorem exit_code_characterization_witness :
    (stepGame initState "quit" = .exit 0) ∧
    (runScript initState ["quit"] = none) :=
  ⟨((exit_code_characterization initState "quit").1).2 ⟨by decide, by decide⟩,
   (exit_code_characterization initState "quit").2.2 0 [] (by decide)⟩

theorem splitAtLast_spec : ∀ l : List Char,
    (∀ a b, splitAtLast l = some (a, b) →
      (l = a ++ onPat ++ b ∧
        ∀ a2 b2, l = a2 ++ onPat ++ b2 → a2.length ≤ a.length)) ∧
    (splitAtLast l = none → ∀ a b, l ≠ a ++ onPat ++ b)
  | [] => by
    constructor
    · intro a b h
      simp [splitAtLast] at h
    · intro _ a b h
      have hlen := congrArg List.length h
      simp [onPat] at hlen
      omega
  | c :: cs => by
    obtain ⟨ihS, ihN⟩ := splitAtLast_spec cs
    cases hs : splitAtLast cs with
    | some p =>
      obtain ⟨pa, pb⟩ := p
      obtain ⟨hdec, hmax⟩ := ihS pa pb hs
      constructor
      · intro a b h
        simp only [splitAtLast] at h
        rw [hs] at h
        simp only [Option.some.injEq, Prod.mk.injEq] at h
        obtain ⟨ha, hb⟩ := h
        subst ha
        subst hb
        constructor
        · rw [List.cons_append, List.cons_append, hdec]
        · intro a2 b2 h2
          cases a2 with
          | nil => simp
          | cons c2 a2' =>
            have h2' : cs = a2' ++ onPat ++ b2 := by
              have := congrArg List.tail h2
              simpa using this
            have := hmax a2' b2 h2'
            simp only [List.length_cons]
            omega
      · intro hnone
        simp only [splitAtLast] at hnone
        rw [hs] at hnone
        simp at hnone
    | none =>
      by_cases hp : onPat.isPrefixOf (c :: cs) = true
      · constructor
        · intro a b h
          simp only [splitAtLast] at h
          rw [hs, if_pos hp] at h
          simp only [Option.some.injEq, Prod.mk.injEq] at h
          obtain ⟨ha, hb⟩ := h
          subst ha
          subst hb
          have hpre : onPat <+: (c :: cs) := List.isPrefixOf_iff_prefix.1 hp
          obtain ⟨t, ht⟩ := hpre
          have hd : (c :: cs).drop 4 = t := by
            rw [← ht]
            have h4 : (4 : Nat) = onPat.length := rfl
            rw [h4, List.drop_left]
          constructor
          · rw [hd, List.nil_append, ht]
          · intro a2 b2 h2
            cases a2 with
            | nil => simp
            | cons c2 a2' =>
              exfalso
              have h2' : cs = a2' ++ onPat ++ b2 := by
                have := congrArg List.tail h2
                simpa using this
              exact ihN hs a2' b2 h2'
        · intro hnone
          simp only [splitAtLast] at hnone
          rw [hs, if_pos hp] at hnone
          simp at hnone
      · constructor
        · intro a b h
          simp only [splitAtLast] at h
          rw [hs, if_neg hp] at h
          simp at h
        · intro _ a b h
          cases a with
          | nil =>
            apply hp
            rw [List.isPrefixOf_iff_prefix]
            exact ⟨b, by rw [h, List.nil_append]⟩
          | cons c2 a' =>
            have h' : cs = a' ++ onPat ++ b := by
              have := congrArg List.tail h
              simpa using this
            exact ihN hs a' b h'

theorem parseTokens_use (t : String) (rest : List String)
    (hu : t = "use" ∨ t = "Use") (hr : rest ≠ []) :
    parseTokens (t :: rest) = catchAll (t :: rest) := by
  rcases hu with h | h <;> subst h <;>
    simp [parseTokens, hr, List.cons.injEq]

/-- Claim C10: when the rejoined line starts with `use`/`Use` plus
whitespace (first token exactly `use` or `Use`, at least one more token) and
the rejoined tail contains the delimiter `" on "` — in particular when it
contains several occurrences — the parser returns `UseOn` split at the LAST
occurrence: the prefix capture is the longest one admitting a `" on "`
delimiter after it, which is what the greedy first `(.*)` of
`^[uU]se\s+(.*) on (.*)$` produces. -/
theorem use_on_splits_at_last (s : String) (t : String) (rest : List String)
    (ht : splitWhitespace s = t :: rest) (hu : t = "use" ∨ t = "Use")
    (hr : rest ≠ []) (a b : List Char)
    (hab : (joinSp rest).toList = a ++ onPat ++ b) :
    (∃ a2 b2 : List Char,
      parse_input s = .UseOn a2.asString b2.asString ∧
      (joinSp rest).toList = a2 ++ onPat ++ b2 ∧
      ∀ a3 b3 : List Char, (joinSp rest).toList = a3 ++ onPat ++ b3 →
        a3.length ≤ a2.length) ∧
    parse_input "use A on B on C" = .UseOn "A on B" "C" := by
  refine ⟨?_, by decide⟩
  have hp : parse_input s = (match splitAtLast (joinSp rest).toList with
      | some (a, b) => ParsedInput.UseOn a.asString b.asString
      | none => ParsedInput.Use (joinSp rest)) := by
    unfold parse_input
    rw [ht, parseTokens_use t rest hu hr]
    simp only [catchAll]
    rw [if_pos ⟨hu, hr⟩]
  cases hs : splitAtLast (joinSp rest).toList with
  | none => exact absurd hab ((splitAtLast_spec (joinSp rest).toList).2 hs a b)
  | some p =>
    obtain ⟨a2, b2⟩ := p
    rw [hs] at hp
    obtain ⟨hdec, hmax⟩ := (splitAtLast_spec (joinSp rest).toList).1 a2 b2 hs
    exact ⟨a2, b2, hp, hdec, hmax⟩

/-- Witness for C10 at `use A on B on C`: the split lands at the last
`" on "`, giving `UseOn("A on B", "C")`. -/
theorem use_on_splits_at_last_witness :
    (∃ a2 b2 : List Char,
      parse_input "use A on B on C" = .UseOn a2.asString b2.asString ∧
      (joinSp ["A", "on", "B", "on", "C"]).toList = a2 ++ onPat ++ b2 ∧
      ∀ a3 b3 : List Char,
        (joinSp ["A", "on", "B", "on", "C"]).toList = a3 ++ onPat ++ b3 →
          a3.length ≤ a2.length) ∧
    parse_input "use A on B on C" = .UseOn "A on B" "C" :=
  use_on_splits_at_last "use A on B on C" "use" ["A", "on", "B", "on", "C"]
    (by decide) (Or.inl rfl) (by decide) "A".toList "B on C".toList (by decide)
